import Mathlib

/-!
Shallow embedding of the liscribe dual-source capture-and-merge core.

The embedding covers:
* the segment merge pipeline of `src/liscribe/transcriber.py`
  (`_normalize_words`, `_text_similarity`, `_tag_source_segments`,
  `_suppress_mic_bleed_duplicates`, `merge_source_segments`), and
* the recording-session finalization logic of `src/liscribe/recorder.py`
  (`enable_speaker_capture`, `disable_speaker_capture`, `_stop_and_save`).

Conventions of the embedding:
* Python floats are modelled as rationals (`ℚ`); the verified properties are
  order/clamping/sorting facts that do not depend on rounding of `float`.
* Python strings are modelled as Lean `String`s; `str.strip` and `str.lower`
  are modelled on the character list (`ASCII`-style whitespace and case, which
  covers the texts the merge pipeline manipulates).
* `difflib.SequenceMatcher(None, a, b).ratio()` is standard-library code
  external to this repository; it is modelled as an abstract parameter
  `seq_ratio : String → String → ℚ`.  Every theorem about the similarity
  machinery is proved for an arbitrary such function.
* `list.sort(key=...)` in Python is a stable sort by the given key; it is
  embedded as `List.insertionSort` (a stable sort) over the same
  lexicographic key order.  A stable sort's output is determined uniquely by
  the key order, so any stable sort is a faithful model.
-/

namespace Liscribe

/-- Whitespace test used by the model of Python's `str.strip`. -/
def isWs (c : Char) : Bool := c.isWhitespace

/-- Strip leading and trailing whitespace characters from a character list. -/
def stripChars (l : List Char) : List Char :=
  ((l.dropWhile isWs).reverse.dropWhile isWs).reverse

/-- Model of Python `str.strip()`. -/
def pyStrip (s : String) : String := ⟨stripChars s.data⟩

/-- Model of Python `str.lower()` (ASCII letters). -/
def pyLower (s : String) : String := ⟨s.data.map Char.toLower⟩

/-- Characters matched by the word-token pattern `[a-z0-9']`:
lowercase letter, digit, or apostrophe (code point 39). -/
def isWordChar (c : Char) : Bool :=
  decide (97 ≤ c.toNat ∧ c.toNat ≤ 122) ||
  decide (48 ≤ c.toNat ∧ c.toNat ≤ 57) ||
  decide (c.toNat = 39)

/-- Maximal runs of word characters in a character list (the accumulator holds
the current run reversed).  Models `re.findall` of the token pattern `[a-z0-9']+`. -/
def tokensAux : List Char → List Char → List String
  | [], acc => if acc = [] then [] else [⟨acc.reverse⟩]
  | c :: rest, acc =>
    if isWordChar c then
      tokensAux rest (c :: acc)
    else if acc = [] then
      tokensAux rest []
    else
      (⟨acc.reverse⟩ : String) :: tokensAux rest []

/-- Model of `_normalize_words`: the set of lowercase alphanumeric word tokens
of a text (`set(re.findall(r"[a-z0-9']+", text.lower()))`). -/
def normalize_words (text : String) : Finset String :=
  (tokensAux (pyLower text).data []).toFinset

/-- Model of `_text_similarity`: combined text similarity score in `[0,1]`.
`seq_ratio` stands for `difflib.SequenceMatcher(None, a, b).ratio()`. -/
def text_similarity (seq_ratio : String → String → ℚ) (a b : String) : ℚ :=
  let a_clean := pyLower (pyStrip a)
  let b_clean := pyLower (pyStrip b)
  if a_clean = "" ∨ b_clean = "" then 0
  else
    let sr := seq_ratio a_clean b_clean
    let wa := normalize_words a_clean
    let wb := normalize_words b_clean
    if wa = ∅ ∨ wb = ∅ then sr
    else
      let token_jaccard : ℚ := ((wa ∩ wb).card : ℚ) / (max 1 ((wa ∪ wb).card) : ℚ)
      let token_containment : ℚ := ((wa ∩ wb).card : ℚ) / (max 1 (min wa.card wb.card) : ℚ)
      max sr (max token_jaccard token_containment)

/-- Audio source of a segment: the microphone or the secondary (speaker loopback) input. -/
inductive Source where
  | mic
  | speaker
deriving DecidableEq

/-- Model of `_source_label`: display label of a source. -/
def source_label (source : Source) : String :=
  match source with
  | Source.mic => "YOU"
  | Source.speaker => "THEM"

/-- Transcribed utterance as produced by the transcription engine: start time,
end time (seconds, relative to the source recording's own start) and text. -/
structure Segment where
  start : ℚ
  «end» : ℚ
  text : String
deriving DecidableEq

/-- Segment annotated with its source and display label, time-shifted into the
common timeline. -/
structure TaggedSegment where
  start : ℚ
  «end» : ℚ
  text : String
  source : Source
  speaker : String
deriving DecidableEq

/-- Model of `_tag_source_segments`: drop empty-text segments, shift times by
`offset_seconds`, clamp start to `≥ 0` and end to `≥` the clamped start,
attach source and display label. -/
def tag_source_segments (segments : List Segment) (source : Source)
    (offset_seconds : ℚ) : List TaggedSegment :=
  segments.filterMap (fun seg =>
    let text := pyStrip seg.text
    if text = "" then none
    else
      let start := seg.start + offset_seconds
      let e := seg.«end» + offset_seconds
      let start := max 0 start
      let e := max start e
      some { start := start, «end» := e, text := text,
             source := source, speaker := source_label source })

/-- Model of `_suppress_mic_bleed_duplicates`: drop a mic segment when its text
is similar (score `≥` the threshold) to the text of any speaker segment. -/
def suppress_mic_bleed_duplicates (seq_ratio : String → String → ℚ)
    (mic_segments speaker_segments : List TaggedSegment)
    (similarity_threshold : ℚ) : List TaggedSegment :=
  mic_segments.filter (fun mic_seg =>
    !(speaker_segments.any (fun spk_seg =>
      decide (similarity_threshold ≤ text_similarity seq_ratio mic_seg.text spk_seg.text))))

/-- Numeric priority of a source inside the sort key:
`0 if seg["source"] == "mic" else 1`. -/
def source_priority (source : Source) : ℕ :=
  match source with
  | Source.mic => 0
  | Source.speaker => 1

/-- Lexicographic order on the Python sort key `(start, source priority, end)`. -/
def segKeyLE (a b : TaggedSegment) : Prop :=
  a.start < b.start ∨ (a.start = b.start ∧
    (source_priority a.source < source_priority b.source ∨
      (source_priority a.source = source_priority b.source ∧ a.«end» ≤ b.«end»)))

instance : DecidableRel segKeyLE := fun a b => by
  unfold segKeyLE; infer_instance

instance : IsTotal TaggedSegment segKeyLE where
  total a b := by
    unfold segKeyLE
    rcases lt_trichotomy a.start b.start with h | h | h
    · exact Or.inl (Or.inl h)
    · rcases Nat.lt_trichotomy (source_priority a.source) (source_priority b.source) with h2 | h2 | h2
      · exact Or.inl (Or.inr ⟨h, Or.inl h2⟩)
      · rcases le_total a.«end» b.«end» with h3 | h3
        · exact Or.inl (Or.inr ⟨h, Or.inr ⟨h2, h3⟩⟩)
        · exact Or.inr (Or.inr ⟨h.symm, Or.inr ⟨h2.symm, h3⟩⟩)
      · exact Or.inr (Or.inr ⟨h.symm, Or.inl h2⟩)
    · exact Or.inr (Or.inl h)

instance : IsTrans TaggedSegment segKeyLE where
  trans a b c hab hbc := by
    unfold segKeyLE at *
    rcases hab with h1 | ⟨h1, h1'⟩
    · rcases hbc with h2 | ⟨h2, _⟩
      · exact Or.inl (h1.trans h2)
      · exact Or.inl (h2 ▸ h1)
    · rcases hbc with h2 | ⟨h2, h2'⟩
      · exact Or.inl (h1 ▸ h2)
      · refine Or.inr ⟨h1.trans h2, ?_⟩
        rcases h1' with h3 | ⟨h3, h3'⟩
        · rcases h2' with h4 | ⟨h4, _⟩
          · exact Or.inl (h3.trans h4)
          · exact Or.inl (h4 ▸ h3)
        · rcases h2' with h4 | ⟨h4, h4'⟩
          · exact Or.inl (h3 ▸ h4)
          · exact Or.inr ⟨h3.trans h4, h3'.trans h4'⟩

/-- Model of the `group_consecutive` loop body of `merge_source_segments`:
the accumulator `grouped` is kept in reverse order, so the loop's
`grouped[-1]` is its head.  A segment with the same speaker as the previous
grouped segment is merged into it (texts joined by one space then stripped,
end extended); otherwise it starts a new group. -/
def group_consecutive_loop (grouped : List TaggedSegment) :
    List TaggedSegment → List TaggedSegment
  | [] => grouped.reverse
  | seg :: rest =>
    match grouped with
    | [] => group_consecutive_loop [seg] rest
    | prev :: acc =>
      if seg.speaker = prev.speaker then
        group_consecutive_loop
          ({ prev with
              text := pyStrip (prev.text ++ " " ++ seg.text),
              «end» := max prev.«end» seg.«end» } :: acc) rest
      else
        group_consecutive_loop (seg :: prev :: acc) rest

/-- Model of `merge_source_segments`: tag both lists (offset only applied to
the speaker list), optionally suppress mic bleed duplicates (only when both
tagged lists are nonempty), concatenate, stable-sort by
`(start, source priority, end)`, and optionally group consecutive
same-speaker segments. -/
def merge_source_segments (seq_ratio : String → String → ℚ)
    (mic_segments speaker_segments : List Segment)
    (speaker_offset_seconds : ℚ) (group_consecutive : Bool)
    (suppress_bleed : Bool) (bleed_similarity_threshold : ℚ) : List TaggedSegment :=
  let tagged_mic := tag_source_segments mic_segments Source.mic 0
  let tagged_speaker :=
    tag_source_segments speaker_segments Source.speaker speaker_offset_seconds
  let tagged_mic :=
    if suppress_bleed && !tagged_mic.isEmpty && !tagged_speaker.isEmpty then
      suppress_mic_bleed_duplicates seq_ratio tagged_mic tagged_speaker
        bleed_similarity_threshold
    else tagged_mic
  let merged := (tagged_mic ++ tagged_speaker).insertionSort segKeyLE
  if group_consecutive then group_consecutive_loop [] merged else merged

/-- Texts as produced by `_tag_source_segments`: nonempty and with no leading
or trailing whitespace (they are stripped). -/
def StrippedText (t : String) : Prop :=
  t.data ≠ [] ∧ (∀ c ∈ t.data.head?, isWs c = false) ∧
    (∀ c ∈ t.data.getLast?, isWs c = false)

/-- One merging step of the `group_consecutive` loop: absorb `s` into the
previous grouped segment `p` (texts joined by one space then stripped, end
extended, everything else kept from `p`). -/
def merge2 (p s : TaggedSegment) : TaggedSegment :=
  { p with
      text := pyStrip (p.text ++ " " ++ s.text),
      «end» := max p.«end» s.«end» }

/-- Recursive normal form of the `group_consecutive` loop: collapse the run
starting at `p` and continue. -/
def collapseFrom (p : TaggedSegment) : List TaggedSegment → List TaggedSegment
  | [] => [p]
  | s :: rest =>
    if s.speaker = p.speaker then collapseFrom (merge2 p s) rest
    else p :: collapseFrom s rest

/-- Maximal runs of adjacent segments sharing a speaker label, each run given
as its first segment paired with the remaining segments of the run. -/
def speakerRuns : List TaggedSegment → List (TaggedSegment × List TaggedSegment)
  | [] => []
  | a :: rest =>
    match speakerRuns rest with
    | [] => [(a, [])]
    | (b, run) :: more =>
      if a.speaker = b.speaker then (a, b :: run) :: more
      else (a, []) :: (b, run) :: more

/-- Concatenation of texts with a single space separator. -/
def joinSpace : List String → String
  | [] => ""
  | [t] => t
  | t :: u :: rest => t ++ " " ++ joinSpace (u :: rest)

/-- Modelled from the spec: collapse one run of same-speaker segments into one
segment keeping the earliest start and latest end of the run and joining the
texts with a single space separator. -/
def collapse_run (h : TaggedSegment) (rest : List TaggedSegment) : TaggedSegment :=
  { start := (rest.map fun x => x.start).foldl min h.start,
    «end» := (rest.map fun x => x.«end»).foldl max h.«end»,
    text := joinSpace (h.text :: rest.map fun x => x.text),
    source := h.source,
    speaker := h.speaker }

/-- Modelled from the spec: collapse every maximal run of adjacent segments
sharing the same speaker label into one segment. -/
def spec_group_consecutive (l : List TaggedSegment) : List TaggedSegment :=
  (speakerRuns l).map fun pr => collapse_run pr.1 pr.2

/-!
Model of the recording session (`src/liscribe/recorder.py`).

Stream handles, wall-clock times and file-system writes are external effects;
the model keeps the session attributes that the control operations read and
write, audio as lists of rational samples (one flat list per callback block;
the `int16` conversion applied at write time is pointwise and
length-preserving, so it is left out of the model), and describes the
artifacts `_stop_and_save` writes as a result value.
-/

/-- Session state of `RecordingSession` as read and written by
`enable_speaker_capture`, `disable_speaker_capture` and `_stop_and_save`. -/
structure RecState where
  speaker : Bool
  speakerEnabledEver : Bool
  blackholeIdx : Option ℕ
  originalOutput : Option String
  speakerStreamOpen : Bool
  micChunks : List (List ℚ)
  speakerChunks : List (List ℚ)
  micFirstAdcTime : Option ℚ
  speakerFirstAdcTime : Option ℚ
deriving DecidableEq

/-- Outcomes of the external calls made by `enable_speaker_capture`:
the loopback-device lookup, the current-output query, the output-routing
switch, and the opening of the secondary input stream. -/
structure EnableEnv where
  findBlackhole : Option ℕ
  currentOutput : String
  setOutputOk : Bool
  openStreamOk : Bool

/-- Model of `RecordingSession.enable_speaker_capture`.  Returns the optional
error message together with the session state after the call. -/
def enable_speaker_capture (env : EnableEnv) (s : RecState) :
    Option String × RecState :=
  if s.speaker then (none, s)
  else
    let s1 := { s with blackholeIdx := env.findBlackhole }
    match env.findBlackhole with
    | none => (some "BlackHole not found. Run setup for instructions.", s1)
    | some _ =>
      let s2 := { s1 with originalOutput := some env.currentOutput }
      if !env.setOutputOk then
        (some "Could not switch output. Create a Multi-Output Device in Audio MIDI Setup.", s2)
      else if !env.openStreamOk then
        (some "Error starting speaker capture.", { s2 with originalOutput := none })
      else
        (none, { s2 with speakerStreamOpen := true, speaker := true,
                         speakerEnabledEver := true })

/-- Model of `RecordingSession.disable_speaker_capture`: close the secondary
stream, restore the original output routing, mark the secondary source
inactive.  The `speakerEnabledEver` flag is not touched. -/
def disable_speaker_capture (s : RecState) : RecState :=
  { s with speakerStreamOpen := false, originalOutput := none, speaker := false }

/-- Round to nearest integer, ties to even (Python's `round`). -/
def roundHalfEven (q : ℚ) : ℤ :=
  let f := ⌊q⌋
  let r := q - f
  if r < 1/2 then f
  else if 1/2 < r then f + 1
  else if 2 ∣ f then f else f + 1

/-- Model of Python `round(x, 4)`. -/
def round4 (q : ℚ) : ℚ := (roundHalfEven (q * 10000) : ℚ) / 10000

/-- Inter-source clock offset persisted in the session descriptor: difference
of the two sources' first-block ADC times when both are available, else 0. -/
def offset_correction (s : RecState) : ℚ :=
  match s.micFirstAdcTime, s.speakerFirstAdcTime with
  | some m, some sp => round4 (sp - m)
  | _, _ => 0

/-- Artifacts produced by `_stop_and_save`: the "nothing recorded" error
result (no files written), a single mic WAV, or a dual-source session
directory (mic WAV, speaker WAV, session descriptor with the offset). -/
inductive StopResult where
  | nothingRecorded
  | singleFile (audio : List ℚ)
  | dualFile (micAudio speakerAudio : List ℚ) (offset : ℚ)
deriving DecidableEq

/-- Files written for each stop outcome. -/
def files_written (r : StopResult) : List String :=
  match r with
  | StopResult.nothingRecorded => []
  | StopResult.singleFile _ => ["timestamp.wav"]
  | StopResult.dualFile _ _ _ => ["mic.wav", "speaker.wav", "session.json"]

/-- Whether a stop outcome is the dual-file session-directory output. -/
def isDualFile (r : StopResult) : Bool :=
  match r with
  | StopResult.dualFile _ _ _ => true
  | _ => false

/-- Model of `RecordingSession._stop_and_save` (the save decision after the
streams are stopped): zero mic blocks is the "nothing recorded" error; an
empty speaker buffer becomes an empty waveform; dual-source mode (driven by
the sticky `speakerEnabledEver` flag) zero-pads the shorter waveform to the
longer one, never truncating, and records the inter-source offset. -/
def stop_and_save (s : RecState) : StopResult :=
  if s.micChunks = [] then StopResult.nothingRecorded
  else
    let mic_audio := s.micChunks.flatten
    let speaker_audio := s.speakerChunks.flatten
    if !s.speakerEnabledEver then StopResult.singleFile mic_audio
    else
      let mic_len := mic_audio.length
      let spk_len := speaker_audio.length
      let offset := offset_correction s
      if spk_len < mic_len then
        StopResult.dualFile mic_audio
          (speaker_audio ++ List.replicate (mic_len - spk_len) 0) offset
      else if mic_len < spk_len then
        StopResult.dualFile (mic_audio ++ List.replicate (spk_len - mic_len) 0)
          speaker_audio offset
      else
        StopResult.dualFile mic_audio speaker_audio offset

/-!
Theorems.
-/

theorem pyLower_eq_empty_iff (s : String) : pyLower s = "" ↔ s = "" := by
  constructor
  · intro h
    have hdata : s.data.map Char.toLower = [] := congrArg String.data h
    exact String.ext (List.map_eq_nil_iff.mp hdata)
  · intro h
    subst h
    rfl

/-- C3: for every offset (including negative offsets larger in magnitude than
a segment's own start) and every input segment, each tagged segment produced
by `_tag_source_segments` satisfies `start ≥ 0` and `end ≥ start`. -/
theorem tag_source_segments_bounds (segments : List Segment) (source : Source)
    (offset_seconds : ℚ) (t : TaggedSegment)
    (ht : t ∈ tag_source_segments segments source offset_seconds) :
    0 ≤ t.start ∧ t.start ≤ t.«end» := by
  simp only [tag_source_segments, List.mem_filterMap] at ht
  obtain ⟨seg, -, hsome⟩ := ht
  by_cases h : pyStrip seg.text = ""
  · simp [h] at hsome
  · simp only [h, if_false, Option.some.injEq] at hsome
    subst hsome
    exact ⟨le_max_left 0 _, le_max_left _ _⟩

/-- Witness for C3 at the segment (1, 2, "hi") with offset -5: the tagged
segment is clamped to start 0, end 0. -/
theorem tag_source_segments_bounds_witness :
    ((⟨0, 0, "hi", Source.mic, "YOU"⟩ : TaggedSegment)
      ∈ tag_source_segments [⟨1, 2, "hi"⟩] Source.mic (-5)) ∧
    (0 ≤ (⟨0, 0, "hi", Source.mic, "YOU"⟩ : TaggedSegment).start ∧
      (⟨0, 0, "hi", Source.mic, "YOU"⟩ : TaggedSegment).start ≤
        (⟨0, 0, "hi", Source.mic, "YOU"⟩ : TaggedSegment).«end») := by
  have hstrip : pyStrip "hi" = "hi" := rfl
  have h1 : max (0:ℚ) (1 + -5) = 0 := max_eq_left (by norm_num)
  have h2 : max (0:ℚ) (2 + -5) = 0 := max_eq_left (by norm_num)
  have hmem : (⟨0, 0, "hi", Source.mic, "YOU"⟩ : TaggedSegment)
      ∈ tag_source_segments [⟨1, 2, "hi"⟩] Source.mic (-5) := by
    simp [tag_source_segments, hstrip, h1, h2, source_label]
  exact ⟨hmem, tag_source_segments_bounds _ Source.mic (-5) _ hmem⟩

/-- C9: when either stripped text is empty the similarity is exactly 0, and
when both are nonempty but either has no word token the similarity is the
character-sequence ratio alone (Jaccard and containment are not applied). -/
theorem text_similarity_degenerate_cases (seq_ratio : String → String → ℚ)
    (a b : String) :
    ((pyStrip a = "" ∨ pyStrip b = "") → text_similarity seq_ratio a b = 0) ∧
    (pyStrip a ≠ "" → pyStrip b ≠ "" →
      (normalize_words (pyLower (pyStrip a)) = ∅ ∨
        normalize_words (pyLower (pyStrip b)) = ∅) →
      text_similarity seq_ratio a b =
        seq_ratio (pyLower (pyStrip a)) (pyLower (pyStrip b))) := by
  constructor
  · intro h
    have h' : pyLower (pyStrip a) = "" ∨ pyLower (pyStrip b) = "" := by
      rcases h with h | h
      · exact Or.inl ((pyLower_eq_empty_iff _).mpr h)
      · exact Or.inr ((pyLower_eq_empty_iff _).mpr h)
    simp [text_similarity, h']
  · intro ha hb htok
    have ha' : ¬ pyLower (pyStrip a) = "" := fun h => ha ((pyLower_eq_empty_iff _).mp h)
    have hb' : ¬ pyLower (pyStrip b) = "" := fun h => hb ((pyLower_eq_empty_iff _).mp h)
    simp [text_similarity, ha', hb', htok]

/-- Witness for C9: score 0 for an empty text, and pure sequence-ratio score
for a pair where one side has no word tokens. -/
theorem text_similarity_degenerate_cases_witness :
    text_similarity (fun _ _ => 1/2) "" "hello" = 0 ∧
    text_similarity (fun _ _ => 1/2) "!!!" "hello" =
      (fun _ _ => (1/2 : ℚ)) (pyLower (pyStrip "!!!")) (pyLower (pyStrip "hello")) := by
  constructor
  · exact (text_similarity_degenerate_cases (fun _ _ => 1/2) "" "hello").1
      (Or.inl (by decide))
  · exact (text_similarity_degenerate_cases (fun _ _ => 1/2) "!!!" "hello").2
      (by decide) (by decide) (Or.inl (by decide))

/-- Helper: a session with a nonempty mic buffer, the sticky flag set and an
empty speaker buffer saves a dual-file session whose secondary track is
silence (all-zero, padded to the mic length). -/
theorem stop_and_save_silent_dual (s : RecState) (hmic : s.micChunks ≠ [])
    (hever : s.speakerEnabledEver = true) (hspk : s.speakerChunks = []) :
    stop_and_save s =
      StopResult.dualFile s.micChunks.flatten
        (List.replicate s.micChunks.flatten.length 0) (offset_correction s) := by
  unfold stop_and_save
  rw [if_neg hmic]
  simp only [hever, hspk, Bool.not_true, List.flatten_nil, List.length_nil]
  rw [if_neg Bool.false_ne_true]
  rcases Nat.eq_zero_or_pos s.micChunks.flatten.length with h0 | hpos
  · rw [if_neg (by omega), if_neg (by omega), h0]
    simp [List.length_eq_zero.mp h0]
  · rw [if_pos hpos]
    simp

/-- C5: stopping with zero mic blocks is the distinct "nothing recorded"
result and writes no files; a nonempty mic buffer never yields that result,
and an empty speaker buffer is not an error — it is saved as silence. -/
theorem stop_with_no_audio_is_error (s : RecState) :
    (s.micChunks = [] → stop_and_save s = StopResult.nothingRecorded ∧
      files_written (stop_and_save s) = []) ∧
    (s.micChunks ≠ [] → stop_and_save s ≠ StopResult.nothingRecorded) ∧
    (s.micChunks ≠ [] → s.speakerEnabledEver = true → s.speakerChunks = [] →
      stop_and_save s =
        StopResult.dualFile s.micChunks.flatten
          (List.replicate s.micChunks.flatten.length 0) (offset_correction s)) := by
  refine ⟨?_, ?_, stop_and_save_silent_dual s⟩
  · intro h
    simp [stop_and_save, h, files_written]
  · intro h
    unfold stop_and_save
    rw [if_neg h]
    dsimp only
    split
    · simp
    · split
      · simp
      · split
        · simp
        · simp

/-- Witness for C5: a session with one mic block and the flag set saves a
dual file with a silent secondary track; with no mic blocks it is the
"nothing recorded" error. -/
theorem stop_with_no_audio_is_error_witness :
    stop_and_save ⟨false, true, none, none, false, [], [[1]], none, none⟩ =
      StopResult.nothingRecorded ∧
    stop_and_save ⟨false, true, none, none, false, [[1]], [], none, none⟩ =
      StopResult.dualFile [1] (List.replicate 1 0)
        (offset_correction ⟨false, true, none, none, false, [[1]], [], none, none⟩) := by
  constructor
  · exact ((stop_with_no_audio_is_error _).1 rfl).1
  · have h := (stop_with_no_audio_is_error
      ⟨false, true, none, none, false, [[1]], [], none, none⟩).2.2
      (by decide) rfl rfl
    simpa using h

/-- C6: at dual-source finalization with waveforms of different lengths, the
shorter is zero-padded at its end to the longer one's length before writing:
both written waveforms have equal length, the longer one is unchanged and the
shorter one keeps all its samples followed by zeros. -/
theorem dual_file_length_alignment (s : RecState) (hmic : s.micChunks ≠ [])
    (hever : s.speakerEnabledEver = true)
    (hne : s.micChunks.flatten.length ≠ s.speakerChunks.flatten.length) :
    ∃ m sp, stop_and_save s = StopResult.dualFile m sp (offset_correction s) ∧
      m.length = sp.length ∧
      (s.speakerChunks.flatten.length < s.micChunks.flatten.length →
        m = s.micChunks.flatten ∧
        sp = s.speakerChunks.flatten ++
          List.replicate
            (s.micChunks.flatten.length - s.speakerChunks.flatten.length) 0) ∧
      (s.micChunks.flatten.length < s.speakerChunks.flatten.length →
        sp = s.speakerChunks.flatten ∧
        m = s.micChunks.flatten ++
          List.replicate
            (s.speakerChunks.flatten.length - s.micChunks.flatten.length) 0) := by
  rcases lt_or_gt_of_ne hne with hlt | hgt
  · refine ⟨s.micChunks.flatten ++
      List.replicate (s.speakerChunks.flatten.length - s.micChunks.flatten.length) 0,
      s.speakerChunks.flatten, ?_, ?_, ?_, ?_⟩
    · unfold stop_and_save
      rw [if_neg hmic]
      simp only [hever, Bool.not_true]
      rw [if_neg Bool.false_ne_true, if_neg (by omega), if_pos hlt]
    · simp only [List.length_append, List.length_replicate]
      omega
    · intro h; omega
    · intro _; exact ⟨rfl, rfl⟩
  · refine ⟨s.micChunks.flatten, s.speakerChunks.flatten ++
      List.replicate (s.micChunks.flatten.length - s.speakerChunks.flatten.length) 0,
      ?_, ?_, ?_, ?_⟩
    · unfold stop_and_save
      rw [if_neg hmic]
      simp only [hever, Bool.not_true]
      rw [if_neg Bool.false_ne_true, if_pos hgt]
    · simp only [List.length_append, List.length_replicate]
      omega
    · intro _; exact ⟨rfl, rfl⟩
    · intro h; omega

/-- Witness for C6: mic waveform of two samples against a one-sample speaker
waveform. -/
theorem dual_file_length_alignment_witness :
    ∃ m sp,
      stop_and_save ⟨false, true, none, none, false, [[1, 2]], [[3]], none, none⟩ =
        StopResult.dualFile m sp
          (offset_correction ⟨false, true, none, none, false, [[1, 2]], [[3]], none, none⟩) ∧
      m.length = sp.length ∧
      (([[3]] : List (List ℚ)).flatten.length < ([[1, 2]] : List (List ℚ)).flatten.length →
        m = ([[1, 2]] : List (List ℚ)).flatten ∧
        sp = ([[3]] : List (List ℚ)).flatten ++
          List.replicate
            (([[1, 2]] : List (List ℚ)).flatten.length -
              ([[3]] : List (List ℚ)).flatten.length) 0) ∧
      (([[1, 2]] : List (List ℚ)).flatten.length < ([[3]] : List (List ℚ)).flatten.length →
        sp = ([[3]] : List (List ℚ)).flatten ∧
        m = ([[1, 2]] : List (List ℚ)).flatten ++
          List.replicate
            (([[3]] : List (List ℚ)).flatten.length -
              ([[1, 2]] : List (List ℚ)).flatten.length) 0) :=
  dual_file_length_alignment ⟨false, true, none, none, false, [[1, 2]], [[3]], none, none⟩
    (by decide) rfl (by decide)

/-- C7: `disable_speaker_capture` never clears the sticky "ever enabled"
flag; a successful stop is the dual-file session output exactly when the flag
is set; and a session that enables then disables the secondary source before
stopping still saves a dual-file session with a silent secondary track. -/
theorem speaker_enabled_ever_sticky (env : EnableEnv) (s : RecState) :
    ((disable_speaker_capture s).speakerEnabledEver = s.speakerEnabledEver) ∧
    (s.micChunks ≠ [] →
      (isDualFile (stop_and_save s) = true ↔ s.speakerEnabledEver = true)) ∧
    (s.speaker = false → (enable_speaker_capture env s).1 = none →
      s.micChunks ≠ [] → s.speakerChunks = [] →
      stop_and_save (disable_speaker_capture (enable_speaker_capture env s).2) =
        StopResult.dualFile s.micChunks.flatten
          (List.replicate s.micChunks.flatten.length 0) (offset_correction s)) := by
  refine ⟨rfl, ?_, ?_⟩
  · intro hmic
    unfold stop_and_save
    rw [if_neg hmic]
    dsimp only
    rcases hb : s.speakerEnabledEver with _ | _
    · simp [hb, isDualFile]
    · simp only [hb, Bool.not_true]
      rw [if_neg Bool.false_ne_true]
      constructor
      · intro _
        trivial
      · intro _
        split
        · rfl
        · split
          · rfl
          · rfl
  · intro hspk hok hmic hempty
    rcases henv : env.findBlackhole with _ | idx
    · rw [enable_speaker_capture] at hok
      simp [hspk, henv] at hok
    · rcases hset : env.setOutputOk with _ | _
      · rw [enable_speaker_capture] at hok
        simp [hspk, henv, hset] at hok
      · rcases hopen : env.openStreamOk with _ | _
        · rw [enable_speaker_capture] at hok
          simp [hspk, henv, hset, hopen] at hok
        · have hstate : (enable_speaker_capture env s).2 =
            { s with blackholeIdx := env.findBlackhole,
                     originalOutput := some env.currentOutput,
                     speakerStreamOpen := true, speaker := true,
                     speakerEnabledEver := true } := by
            rw [enable_speaker_capture]
            simp [hspk, henv, hset, hopen]
          rw [hstate]
          exact stop_and_save_silent_dual _ hmic rfl hempty

/-- Witness for C7: enable then disable the secondary source on a session
with one mic block and no speaker blocks, then stop. -/
theorem speaker_enabled_ever_sticky_witness :
    stop_and_save (disable_speaker_capture
        (enable_speaker_capture ⟨some 3, "out", true, true⟩
          ⟨false, false, none, none, false, [[1]], [], none, none⟩).2) =
      StopResult.dualFile [1] (List.replicate 1 0)
        (offset_correction ⟨false, false, none, none, false, [[1]], [], none, none⟩) :=
  (speaker_enabled_ever_sticky ⟨some 3, "out", true, true⟩
    ⟨false, false, none, none, false, [[1]], [], none, none⟩).2.2
    rfl rfl (by decide) rfl

/-- Counterexample for C8: with the secondary source inactive and a stale
stored loopback index from an earlier enable/disable cycle, a failed lookup
returns an error but also overwrites the stored index, altering session
state. -/
theorem enable_speaker_capture_state_altered :
    ((enable_speaker_capture ⟨none, "out", true, true⟩
        ⟨false, false, some 3, none, false, [], [], none, none⟩).1).isSome = true ∧
    (enable_speaker_capture ⟨none, "out", true, true⟩
        ⟨false, false, some 3, none, false, [], [], none, none⟩).2 ≠
      ⟨false, false, some 3, none, false, [], [], none, none⟩ := by
  constructor
  · rfl
  · intro h
    have := congrArg RecState.blackholeIdx h
    simp [enable_speaker_capture] at this

/-- C8 (amended): `enable_speaker_capture` is an idempotent no-op returning
success when the secondary source is already active; when the loopback device
cannot be found it returns an error string and the only state change is that
the stored loopback device index is overwritten with the failed lookup
result. -/
theorem enable_speaker_capture_idempotent_and_lookup_failure
    (env : EnableEnv) (s : RecState) :
    (s.speaker = true → enable_speaker_capture env s = (none, s)) ∧
    (s.speaker = false → env.findBlackhole = none →
      enable_speaker_capture env s =
        (some "BlackHole not found. Run setup for instructions.",
          { s with blackholeIdx := none })) := by
  constructor
  · intro h
    simp [enable_speaker_capture, h]
  · intro h hfind
    simp [enable_speaker_capture, h, hfind]

/-- Witness for C8 at concrete session states: already-active no-op, and
lookup-failure error with the index overwritten. -/
theorem enable_speaker_capture_idempotent_witness :
    enable_speaker_capture ⟨none, "out", true, true⟩
        ⟨true, true, some 3, some "o", true, [], [], none, none⟩ =
      (none, ⟨true, true, some 3, some "o", true, [], [], none, none⟩) ∧
    enable_speaker_capture ⟨none, "out", true, true⟩
        ⟨false, false, some 3, none, false, [], [], none, none⟩ =
      (some "BlackHole not found. Run setup for instructions.",
        { (⟨false, false, some 3, none, false, [], [], none, none⟩ : RecState) with
            blackholeIdx := none }) :=
  ⟨(enable_speaker_capture_idempotent_and_lookup_failure _ _).1 rfl,
    (enable_speaker_capture_idempotent_and_lookup_failure _ _).2 rfl rfl⟩

/-- C1: with grouping off, the merge output is sorted non-decreasing by
shifted start time; at equal start, mic-sourced segments (priority 0) precede
secondary-sourced segments (priority 1), and remaining ties are broken by
shifted end: every earlier output segment is `≤` every later one in the
lexicographic key order `(start, source priority, end)`. -/
theorem merge_chronological_order (seq_ratio : String → String → ℚ)
    (mic_segments speaker_segments : List Segment)
    (speaker_offset_seconds bleed_similarity_threshold : ℚ) (suppress_bleed : Bool) :
    (merge_source_segments seq_ratio mic_segments speaker_segments
        speaker_offset_seconds false suppress_bleed bleed_similarity_threshold).Pairwise
      (fun a b => a.start < b.start ∨ (a.start = b.start ∧
        (source_priority a.source < source_priority b.source ∨
          (source_priority a.source = source_priority b.source ∧
            a.«end» ≤ b.«end»)))) := by
  unfold merge_source_segments
  dsimp only
  rw [if_neg Bool.false_ne_true]
  exact List.sorted_insertionSort segKeyLE _

theorem tag_source_segments_source (segments : List Segment) (source : Source)
    (offset_seconds : ℚ) (t : TaggedSegment)
    (ht : t ∈ tag_source_segments segments source offset_seconds) :
    t.source = source ∧ t.speaker = source_label source := by
  simp only [tag_source_segments, List.mem_filterMap] at ht
  obtain ⟨seg, -, hsome⟩ := ht
  by_cases h : pyStrip seg.text = ""
  · simp [h] at hsome
  · simp only [h, if_false, Option.some.injEq] at hsome
    subst hsome
    exact ⟨rfl, rfl⟩

theorem suppress_eq_filter (seq_ratio : String → String → ℚ)
    (mic_segments speaker_segments : List TaggedSegment) (th : ℚ) :
    suppress_mic_bleed_duplicates seq_ratio mic_segments speaker_segments th =
      mic_segments.filter (fun m =>
        decide (∀ sp ∈ speaker_segments,
          text_similarity seq_ratio m.text sp.text < th)) := by
  unfold suppress_mic_bleed_duplicates
  apply List.filter_congr
  intro m _
  rw [Bool.eq_iff_iff]
  simp [List.any_eq_true, not_le]

/-- C2: with bleed suppression enabled, a mic segment survives into the merge
output exactly when every secondary segment's text scores below the
similarity threshold against it; the decision reads only the texts (both the
secondary list and the mic segment can be retimed arbitrarily without
changing it), and on token-bearing texts the score is the maximum of the
character-sequence ratio, the token Jaccard index and the token containment
ratio. -/
theorem bleed_suppression_criterion (seq_ratio : String → String → ℚ)
    (mic_segments speaker_segments : List Segment)
    (speaker_offset_seconds th : ℚ) :
    (∀ m : TaggedSegment,
      (m ∈ merge_source_segments seq_ratio mic_segments speaker_segments
          speaker_offset_seconds false true th ∧ m.source = Source.mic) ↔
        (m ∈ tag_source_segments mic_segments Source.mic 0 ∧
          ∀ sp ∈ tag_source_segments speaker_segments Source.speaker
              speaker_offset_seconds,
            text_similarity seq_ratio m.text sp.text < th)) ∧
    (∀ micT spkT spkT2 : List TaggedSegment, ∀ th2 : ℚ,
      spkT.map (fun x => x.text) = spkT2.map (fun x => x.text) →
      suppress_mic_bleed_duplicates seq_ratio micT spkT th2 =
        suppress_mic_bleed_duplicates seq_ratio micT spkT2 th2) ∧
    (∀ micT spkT : List TaggedSegment, ∀ th2 : ℚ,
      ∀ f : TaggedSegment → TaggedSegment, (∀ x, (f x).text = x.text) →
      suppress_mic_bleed_duplicates seq_ratio (micT.map f) spkT th2 =
        (suppress_mic_bleed_duplicates seq_ratio micT spkT th2).map f) ∧
    (∀ a b : String, pyLower (pyStrip a) ≠ "" → pyLower (pyStrip b) ≠ "" →
      normalize_words (pyLower (pyStrip a)) ≠ ∅ →
      normalize_words (pyLower (pyStrip b)) ≠ ∅ →
      text_similarity seq_ratio a b =
        max (seq_ratio (pyLower (pyStrip a)) (pyLower (pyStrip b)))
          (max
            (((normalize_words (pyLower (pyStrip a)) ∩
                normalize_words (pyLower (pyStrip b))).card : ℚ) /
              (max 1 ((normalize_words (pyLower (pyStrip a)) ∪
                normalize_words (pyLower (pyStrip b))).card) : ℚ))
            (((normalize_words (pyLower (pyStrip a)) ∩
                normalize_words (pyLower (pyStrip b))).card : ℚ) /
              (max 1 (min (normalize_words (pyLower (pyStrip a))).card
                (normalize_words (pyLower (pyStrip b))).card) : ℚ)))) := by
  refine ⟨?_, ?_, ?_, ?_⟩
  · intro m
    unfold merge_source_segments
    dsimp only
    rw [if_neg Bool.false_ne_true, suppress_eq_filter]
    set tm := tag_source_segments mic_segments Source.mic 0 with htm
    set ts := tag_source_segments speaker_segments Source.speaker
      speaker_offset_seconds with hts
    have hsrc_tm : ∀ t ∈ tm, t.source = Source.mic := fun t ht =>
      (tag_source_segments_source _ _ _ t ht).1
    have hsrc_ts : ∀ t ∈ ts, t.source = Source.speaker := fun t ht =>
      (tag_source_segments_source _ _ _ t ht).1
    simp only [List.mem_insertionSort, List.mem_append]
    by_cases h1 : tm.isEmpty
    · have htm0 : tm = [] := List.isEmpty_iff.mp h1
      have hcond : (true && !tm.isEmpty && !ts.isEmpty) = false := by
        rw [h1]; rfl
      rw [hcond, if_neg Bool.false_ne_true]
      constructor
      · rintro ⟨hm | hm, hsrc⟩
        · rw [htm0] at hm
          exact absurd hm (List.not_mem_nil m)
        · exact Source.noConfusion (hsrc.symm.trans (hsrc_ts m hm))
      · rintro ⟨hm, -⟩
        rw [htm0] at hm
        exact absurd hm (List.not_mem_nil m)
    · by_cases h2 : ts.isEmpty
      · have hts0 : ts = [] := List.isEmpty_iff.mp h2
        have hcond : (true && !tm.isEmpty && !ts.isEmpty) = false := by
          rw [h2]; simp
        rw [hcond, if_neg Bool.false_ne_true]
        constructor
        · rintro ⟨hm | hm, hsrc⟩
          · refine ⟨hm, ?_⟩
            rw [hts0]
            intro sp hsp
            exact absurd hsp (List.not_mem_nil sp)
          · rw [hts0] at hm
            exact absurd hm (List.not_mem_nil m)
        · rintro ⟨hm, -⟩
          exact ⟨Or.inl hm, hsrc_tm m hm⟩
      · have hcond : (true && !tm.isEmpty && !ts.isEmpty) = true := by
          rw [Bool.not_eq_true] at h1 h2
          rw [h1, h2]; rfl
        rw [hcond, if_pos rfl]
        constructor
        · rintro ⟨hm | hm, hsrc⟩
          · rw [List.mem_filter] at hm
            exact ⟨hm.1, of_decide_eq_true hm.2⟩
          · exact Source.noConfusion (hsrc.symm.trans (hsrc_ts m hm))
        · rintro ⟨hm, hP⟩
          refine ⟨Or.inl ?_, hsrc_tm m hm⟩
          rw [List.mem_filter]
          exact ⟨hm, decide_eq_true hP⟩
  · intro micT spkT spkT2 th2 htext
    rw [suppress_eq_filter, suppress_eq_filter]
    apply List.filter_congr
    intro m _
    rw [decide_eq_decide]
    constructor
    · intro h sp hsp
      have hmem : sp.text ∈ spkT2.map (fun x => x.text) := List.mem_map_of_mem _ hsp
      rw [← htext] at hmem
      obtain ⟨sp0, hsp0, heq⟩ := List.mem_map.mp hmem
      have h2 := h sp0 hsp0
      rwa [heq] at h2
    · intro h sp hsp
      have hmem : sp.text ∈ spkT.map (fun x => x.text) := List.mem_map_of_mem _ hsp
      rw [htext] at hmem
      obtain ⟨sp0, hsp0, heq⟩ := List.mem_map.mp hmem
      have h2 := h sp0 hsp0
      rwa [heq] at h2
  · intro micT spkT th2 f hf
    rw [suppress_eq_filter, suppress_eq_filter, List.filter_map]
    congr 1
    apply List.filter_congr
    intro x _
    simp only [Function.comp_apply, hf x]
  · intro a b ha hb hwa hwb
    simp only [text_similarity]
    rw [if_neg (not_or.mpr ⟨ha, hb⟩), if_neg (not_or.mpr ⟨hwa, hwb⟩)]

/-- Witness for C2: a mic segment whose text is dissimilar to the one
secondary segment still scores at least threshold 0, so with threshold 0 it
is dropped from the merge output, even though the two segments are minutes
apart has no bearing on the decision. -/
theorem bleed_suppression_criterion_witness :
    ¬ ((⟨1, 2, "hello", Source.mic, "YOU"⟩ : TaggedSegment) ∈
        merge_source_segments (fun _ _ => 0) [⟨1, 2, "hello"⟩] [⟨0, 0, "world"⟩]
          0 false true 0 ∧
      (⟨1, 2, "hello", Source.mic, "YOU"⟩ : TaggedSegment).source = Source.mic) := by
  rw [(bleed_suppression_criterion (fun _ _ => 0) [⟨1, 2, "hello"⟩] [⟨0, 0, "world"⟩]
    0 0).1 ⟨1, 2, "hello", Source.mic, "YOU"⟩]
  rintro ⟨-, hall⟩
  have h0 : max (0:ℚ) (0 + 0) = 0 := by norm_num
  have hspmem : (⟨0, 0, "world", Source.speaker, "THEM"⟩ : TaggedSegment) ∈
      tag_source_segments [⟨0, 0, "world"⟩] Source.speaker 0 := by
    simp [tag_source_segments, h0, source_label]
    exact ⟨by decide, by decide⟩
  have hlt := hall _ hspmem
  have hval := (bleed_suppression_criterion (fun _ _ => 0) [] [] 0 0).2.2.2
    "hello" "world" (by decide) (by decide) (by decide) (by decide)
  rw [hval] at hlt
  exact absurd hlt (not_lt.mpr (le_max_left 0 _))

theorem head_dropWhile_false (p : Char → Bool) (l : List Char) :
    ∀ c ∈ (l.dropWhile p).head?, p c = false := by
  induction l with
  | nil => simp
  | cons a t ih =>
    by_cases h : p a
    · rw [List.dropWhile_cons_of_pos h]
      exact ih
    · rw [List.dropWhile_cons_of_neg h]
      intro c hc
      simp only [List.head?_cons, Option.mem_def, Option.some.injEq] at hc
      subst hc
      exact Bool.eq_false_iff.mpr h

theorem getLast?_dropWhile_of_ne_nil (p : Char → Bool) (l : List Char)
    (h : l.dropWhile p ≠ []) : (l.dropWhile p).getLast? = l.getLast? := by
  induction l with
  | nil => simp at h
  | cons a t ih =>
    by_cases hp : p a
    · rw [List.dropWhile_cons_of_pos hp] at h ⊢
      rw [ih h, List.getLast?_cons]
      have ht : t ≠ [] := by
        intro h0
        rw [h0] at h
        simp at h
      cases t with
      | nil => exact absurd rfl ht
      | cons b u => simp [List.getLast?_cons]
    · rw [List.dropWhile_cons_of_neg hp]

theorem dropWhile_eq_self_of_head (p : Char → Bool) (l : List Char)
    (h : ∀ c ∈ l.head?, p c = false) : l.dropWhile p = l := by
  cases l with
  | nil => rfl
  | cons a t =>
    have ha : p a = false := h a rfl
    rw [List.dropWhile_cons_of_neg (by simp [ha])]

theorem stripChars_eq_self (l : List Char)
    (h1 : ∀ c ∈ l.head?, isWs c = false)
    (h2 : ∀ c ∈ l.getLast?, isWs c = false) : stripChars l = l := by
  unfold stripChars
  rw [dropWhile_eq_self_of_head _ _ h1]
  rw [dropWhile_eq_self_of_head _ _ (by rw [List.head?_reverse]; exact h2)]
  exact List.reverse_reverse l

theorem stripChars_noWsEnds (l : List Char) :
    (∀ c ∈ (stripChars l).head?, isWs c = false) ∧
      (∀ c ∈ (stripChars l).getLast?, isWs c = false) := by
  unfold stripChars
  constructor
  · rw [List.head?_reverse]
    by_cases hZ : (List.dropWhile isWs (List.dropWhile isWs l).reverse) = []
    · rw [hZ]
      simp
    · rw [getLast?_dropWhile_of_ne_nil _ _ hZ, List.getLast?_reverse]
      exact head_dropWhile_false _ l
  · rw [List.getLast?_reverse]
    exact head_dropWhile_false _ _

theorem pyStrip_strippedText (s : String) (h : pyStrip s ≠ "") :
    StrippedText (pyStrip s) := by
  refine ⟨?_, (stripChars_noWsEnds s.data).1, (stripChars_noWsEnds s.data).2⟩
  intro h0
  exact h (String.ext h0)

theorem data_append_space (a b : String) :
    (a ++ " " ++ b).data = a.data ++ (' ' :: b.data) := by
  rw [String.data_append, String.data_append]
  simp

theorem strippedText_append_space (a b : String)
    (ha : StrippedText a) (hb : StrippedText b) :
    pyStrip (a ++ " " ++ b) = a ++ " " ++ b ∧ StrippedText (a ++ " " ++ b) := by
  obtain ⟨ha0, ha1, ha2⟩ := ha
  obtain ⟨hb0, hb1, hb2⟩ := hb
  have hhead : ∀ c ∈ (a.data ++ (' ' :: b.data)).head?, isWs c = false := by
    intro c hc
    rw [List.head?_append] at hc
    cases hd : a.data with
    | nil => exact absurd hd ha0
    | cons c0 t0 =>
      rw [hd] at hc
      rw [List.head?_cons, Option.or_some] at hc
      apply ha1
      rw [hd]
      exact hc
  have hlast : ∀ c ∈ (a.data ++ (' ' :: b.data)).getLast?, isWs c = false := by
    intro c hc
    rw [List.getLast?_append] at hc
    cases hd : b.data with
    | nil => exact absurd hd hb0
    | cons c0 t0 =>
      rw [hd] at hc
      rw [List.getLast?_cons_cons] at hc
      cases hgl : (c0 :: t0).getLast? with
      | none =>
        rw [hgl, Option.none_or] at hc
        exact ha2 c hc
      | some y =>
        rw [hgl, Option.or_some] at hc
        apply hb2
        rw [hd, hgl]
        exact hc
  have hself : stripChars (a.data ++ (' ' :: b.data)) = a.data ++ (' ' :: b.data) :=
    stripChars_eq_self _ hhead hlast
  have hdata := data_append_space a b
  constructor
  · apply String.ext
    show stripChars (a ++ " " ++ b).data = (a ++ " " ++ b).data
    rw [hdata]
    exact hself
  · refine ⟨?_, ?_, ?_⟩
    · rw [hdata]
      simp [ha0]
    · rw [hdata]
      exact hhead
    · rw [hdata]
      exact hlast

theorem group_consecutive_loop_acc (l : List TaggedSegment) :
    ∀ (p : TaggedSegment) (acc : List TaggedSegment),
      group_consecutive_loop (p :: acc) l = acc.reverse ++ collapseFrom p l := by
  induction l with
  | nil =>
    intro p acc
    rw [group_consecutive_loop, collapseFrom, List.reverse_cons]
  | cons seg rest ih =>
    intro p acc
    rw [group_consecutive_loop, collapseFrom]
    by_cases h : seg.speaker = p.speaker
    · rw [if_pos h, if_pos h, ih]
      rfl
    · rw [if_neg h, if_neg h, ih, List.reverse_cons, List.append_assoc]
      rfl

theorem group_consecutive_loop_nil_cons (s : TaggedSegment) (l : List TaggedSegment) :
    group_consecutive_loop [] (s :: l) = collapseFrom s l := by
  rw [group_consecutive_loop]
  rw [group_consecutive_loop_acc l s []]
  rfl

theorem collapseFrom_chain (l : List TaggedSegment) : ∀ p : TaggedSegment,
    ∃ q t, collapseFrom p l = q :: t ∧ q.speaker = p.speaker ∧
      List.Chain' (fun a b => a.speaker ≠ b.speaker) (q :: t) := by
  induction l with
  | nil =>
    intro p
    exact ⟨p, [], rfl, rfl, List.chain'_singleton p⟩
  | cons s rest ih =>
    intro p
    by_cases h : s.speaker = p.speaker
    · rw [collapseFrom, if_pos h]
      obtain ⟨q, t, heq, hspk, hch⟩ := ih _
      exact ⟨q, t, heq, hspk, hch⟩
    · rw [collapseFrom, if_neg h]
      obtain ⟨q, t, heq, hspk, hch⟩ := ih s
      refine ⟨p, q :: t, by rw [heq], rfl, ?_⟩
      rw [List.chain'_cons]
      refine ⟨fun hc => h (hspk.symm.trans hc.symm), hch⟩

theorem group_consecutive_loop_chain (L : List TaggedSegment) :
    List.Chain' (fun a b => a.speaker ≠ b.speaker) (group_consecutive_loop [] L) := by
  cases L with
  | nil =>
    rw [group_consecutive_loop]
    exact List.chain'_nil
  | cons s l =>
    rw [group_consecutive_loop_nil_cons]
    obtain ⟨q, t, heq, -, hch⟩ := collapseFrom_chain l s
    rw [heq]
    exact hch

/-- C10: with consecutive grouping on, no two adjacent segments of the merge
output share a speaker label. -/
theorem merge_group_no_adjacent_same_speaker (seq_ratio : String → String → ℚ)
    (mic_segments speaker_segments : List Segment)
    (speaker_offset_seconds bleed_similarity_threshold : ℚ)
    (suppress_bleed : Bool) :
    List.Chain' (fun a b => a.speaker ≠ b.speaker)
      (merge_source_segments seq_ratio mic_segments speaker_segments
        speaker_offset_seconds true suppress_bleed bleed_similarity_threshold) := by
  unfold merge_source_segments
  dsimp only
  rw [if_pos rfl]
  exact group_consecutive_loop_chain _

theorem string_append_assoc (x y z : String) : (x ++ y) ++ z = x ++ (y ++ z) := by
  apply String.ext
  simp [String.data_append]

theorem joinSpace_absorb (x y : String) (T : List String) :
    joinSpace ((x ++ " " ++ y) :: T) = joinSpace (x :: y :: T) := by
  cases T with
  | nil => rfl
  | cons u T2 =>
    show (x ++ " " ++ y) ++ " " ++ joinSpace (u :: T2) =
      x ++ " " ++ (y ++ " " ++ joinSpace (u :: T2))
    apply String.ext
    simp [String.data_append]

theorem collapse_run_nil (p : TaggedSegment) : collapse_run p [] = p := rfl

theorem collapse_run_absorb (p s : TaggedSegment) (L : List TaggedSegment)
    (hle : p.start ≤ s.start)
    (htext : pyStrip (p.text ++ " " ++ s.text) = p.text ++ " " ++ s.text) :
    collapse_run (merge2 p s) L = collapse_run p (s :: L) := by
  unfold collapse_run merge2
  simp only [List.map_cons, List.foldl_cons, min_eq_left hle, htext, joinSpace_absorb]

theorem speakerRuns_shape (a : TaggedSegment) (l : List TaggedSegment) :
    ∃ run more, speakerRuns (a :: l) = (a, run) :: more := by
  rw [speakerRuns]
  cases hr : speakerRuns l with
  | nil => exact ⟨[], [], rfl⟩
  | cons pr more =>
    obtain ⟨b, run⟩ := pr
    dsimp only
    by_cases h : a.speaker = b.speaker
    · rw [if_pos h]
      exact ⟨b :: run, more, rfl⟩
    · rw [if_neg h]
      exact ⟨[], (b, run) :: more, rfl⟩

theorem segKeyLE_start_le (a b : TaggedSegment) (h : segKeyLE a b) :
    a.start ≤ b.start := by
  rcases h with h | ⟨h, -⟩
  · exact le_of_lt h
  · exact le_of_eq h

theorem tag_source_segments_text (segments : List Segment) (source : Source)
    (offset_seconds : ℚ) (t : TaggedSegment)
    (ht : t ∈ tag_source_segments segments source offset_seconds) :
    StrippedText t.text := by
  simp only [tag_source_segments, List.mem_filterMap] at ht
  obtain ⟨seg, -, hsome⟩ := ht
  by_cases h : pyStrip seg.text = ""
  · simp [h] at hsome
  · simp only [h, if_false, Option.some.injEq] at hsome
    subst hsome
    exact pyStrip_strippedText seg.text h

theorem merge_nogroup_invariants (seq_ratio : String → String → ℚ)
    (mic_segments speaker_segments : List Segment)
    (speaker_offset_seconds th : ℚ) (sb : Bool) :
    (∀ t ∈ merge_source_segments seq_ratio mic_segments speaker_segments
        speaker_offset_seconds false sb th, StrippedText t.text) ∧
    List.Pairwise (fun a b => a.start ≤ b.start)
      (merge_source_segments seq_ratio mic_segments speaker_segments
        speaker_offset_seconds false sb th) := by
  constructor
  · intro t ht
    unfold merge_source_segments at ht
    dsimp only at ht
    rw [if_neg Bool.false_ne_true] at ht
    rw [List.mem_insertionSort, List.mem_append] at ht
    rcases ht with h | h
    · by_cases hc : (sb && !(tag_source_segments mic_segments Source.mic 0).isEmpty &&
        !(tag_source_segments speaker_segments Source.speaker
          speaker_offset_seconds).isEmpty) = true
      · rw [if_pos hc, suppress_eq_filter, List.mem_filter] at h
        exact tag_source_segments_text _ _ _ t h.1
      · rw [if_neg hc] at h
        exact tag_source_segments_text _ _ _ t h
    · exact tag_source_segments_text _ _ _ t h
  · have h := merge_chronological_order seq_ratio mic_segments speaker_segments
      speaker_offset_seconds th sb
    exact h.imp (fun hab => segKeyLE_start_le _ _ hab)

theorem collapseFrom_eq_spec (l : List TaggedSegment) : ∀ p : TaggedSegment,
    (∀ t ∈ p :: l, StrippedText t.text) →
    List.Pairwise (fun a b => a.start ≤ b.start) (p :: l) →
    collapseFrom p l = spec_group_consecutive (p :: l) := by
  induction l with
  | nil =>
    intro p _ _
    rfl
  | cons s rest ih =>
    intro p hstr hsort
    have hps : StrippedText p.text := hstr p (List.mem_cons_self _ _)
    have hss : StrippedText s.text := hstr s (by simp)
    have hle : p.start ≤ s.start := by
      rw [List.pairwise_cons] at hsort
      exact hsort.1 s (List.mem_cons_self _ _)
    by_cases h : s.speaker = p.speaker
    · rw [collapseFrom, if_pos h]
      obtain ⟨htext_eq, htext_str⟩ := strippedText_append_space p.text s.text hps hss
      have hstr' : ∀ t ∈ merge2 p s :: rest, StrippedText t.text := by
        intro t ht
        rcases List.mem_cons.mp ht with rfl | ht
        · show StrippedText (pyStrip (p.text ++ " " ++ s.text))
          rw [htext_eq]
          exact htext_str
        · exact hstr t (by simp [ht])
      have hsort' : List.Pairwise (fun a b => a.start ≤ b.start)
          (merge2 p s :: rest) := by
        rw [List.pairwise_cons] at hsort ⊢
        obtain ⟨hp_all, hrest⟩ := hsort
        rw [List.pairwise_cons] at hrest
        exact ⟨fun t ht => hp_all t (by simp [ht]), hrest.2⟩
      rw [ih _ hstr' hsort']
      unfold spec_group_consecutive
      cases hsrest : speakerRuns rest with
      | nil =>
        simp only [speakerRuns, hsrest]
        rw [if_pos (show p.speaker = s.speaker from h.symm)]
        simp only [List.map_cons, List.map_nil]
        rw [collapse_run_absorb p s [] hle htext_eq]
      | cons pr more =>
        obtain ⟨b, run⟩ := pr
        simp only [speakerRuns, hsrest]
        by_cases hsb : s.speaker = b.speaker
        · rw [if_pos (show (merge2 p s).speaker = b.speaker from h.symm.trans hsb)]
          rw [if_pos hsb]
          dsimp only
          rw [if_pos (show p.speaker = s.speaker from h.symm)]
          simp only [List.map_cons]
          rw [collapse_run_absorb p s (b :: run) hle htext_eq]
        · rw [if_neg (show ¬ (merge2 p s).speaker = b.speaker from
              fun hc => hsb (h.trans hc))]
          rw [if_neg hsb]
          dsimp only
          rw [if_pos (show p.speaker = s.speaker from h.symm)]
          simp only [List.map_cons]
          rw [collapse_run_absorb p s [] hle htext_eq]
    · rw [collapseFrom, if_neg h]
      have hstr' : ∀ t ∈ s :: rest, StrippedText t.text := by
        intro t ht
        exact hstr t (by simp [List.mem_cons.mp ht])
      have hsort' : List.Pairwise (fun a b => a.start ≤ b.start) (s :: rest) := by
        rw [List.pairwise_cons] at hsort
        exact hsort.2
      rw [ih s hstr' hsort']
      obtain ⟨run, more, hsr⟩ := speakerRuns_shape s rest
      unfold spec_group_consecutive
      rw [hsr, speakerRuns, hsr]
      dsimp only
      rw [if_neg (show ¬ p.speaker = s.speaker from fun hc => h hc.symm)]
      simp only [List.map_cons]
      rw [collapse_run_nil]

theorem group_loop_eq_spec (L : List TaggedSegment)
    (hstr : ∀ t ∈ L, StrippedText t.text)
    (hsort : List.Pairwise (fun a b => a.start ≤ b.start) L) :
    group_consecutive_loop [] L = spec_group_consecutive L := by
  cases L with
  | nil => rfl
  | cons s l =>
    rw [group_consecutive_loop_nil_cons]
    exact collapseFrom_eq_spec l s hstr hsort

/-- C4: with `group_consecutive` on, `merge_source_segments` collapses every
maximal run of adjacent same-speaker segments of the ungrouped output into
one segment whose text joins the run's texts with single spaces, whose start
is the earliest start of the run and whose end is the latest end; in
particular mic segments (0, 0.7, "one") and (0.8, 1.2, "two") with no
secondary collapse to the single segment (0, 1.2, "one two"). -/
theorem merge_group_consecutive_spec (seq_ratio : String → String → ℚ)
    (mic_segments speaker_segments : List Segment)
    (speaker_offset_seconds bleed_similarity_threshold : ℚ)
    (suppress_bleed : Bool) :
    (merge_source_segments seq_ratio mic_segments speaker_segments
        speaker_offset_seconds true suppress_bleed bleed_similarity_threshold =
      spec_group_consecutive
        (merge_source_segments seq_ratio mic_segments speaker_segments
          speaker_offset_seconds false suppress_bleed bleed_similarity_threshold)) ∧
    (merge_source_segments (fun _ _ => 0) [⟨0, 7/10, "one"⟩, ⟨8/10, 12/10, "two"⟩]
        [] 0 true false (62/100) = [⟨0, 12/10, "one two", Source.mic, "YOU"⟩]) := by
  constructor
  · have hinv := merge_nogroup_invariants seq_ratio mic_segments speaker_segments
      speaker_offset_seconds bleed_similarity_threshold suppress_bleed
    have h1 : merge_source_segments seq_ratio mic_segments speaker_segments
        speaker_offset_seconds true suppress_bleed bleed_similarity_threshold =
        group_consecutive_loop []
          (merge_source_segments seq_ratio mic_segments speaker_segments
            speaker_offset_seconds false suppress_bleed bleed_similarity_threshold) := by
      unfold merge_source_segments
      dsimp only
      rw [if_pos rfl, if_neg Bool.false_ne_true]
    rw [h1]
    exact group_loop_eq_spec _ hinv.1 hinv.2
  · have j1 : max (0:ℚ) 0 = 0 := max_self 0
    have j2 : max (0:ℚ) (7/10) = 7/10 := max_eq_right (by norm_num)
    have j3 : max (0:ℚ) (8/10) = 8/10 := max_eq_right (by norm_num)
    have j4 : max (8/10:ℚ) (12/10) = 12/10 := max_eq_right (by norm_num)
    have t1 : pyStrip "one" = "one" := rfl
    have t2 : pyStrip "two" = "two" := rfl
    have e1 : tag_source_segments [⟨0, 7/10, "one"⟩, ⟨8/10, 12/10, "two"⟩]
        Source.mic 0 =
        [⟨0, 7/10, "one", Source.mic, "YOU"⟩,
          ⟨8/10, 12/10, "two", Source.mic, "YOU"⟩] := by
      simp [tag_source_segments, j1, j2, j3, j4, t1, t2, source_label]
    have hkey : segKeyLE ⟨0, 7/10, "one", Source.mic, "YOU"⟩
        ⟨8/10, 12/10, "two", Source.mic, "YOU"⟩ := Or.inl (by norm_num)
    have e4 : List.insertionSort segKeyLE
        [⟨0, 7/10, "one", Source.mic, "YOU"⟩,
          ⟨8/10, 12/10, "two", Source.mic, "YOU"⟩] =
        [(⟨0, 7/10, "one", Source.mic, "YOU"⟩ : TaggedSegment),
          ⟨8/10, 12/10, "two", Source.mic, "YOU"⟩] := by
      simp only [List.insertionSort, List.orderedInsert]
      rw [if_pos hkey]
    have e5 : max (7/10 : ℚ) (12/10) = 12/10 := max_eq_right (by norm_num)
    have e6 : pyStrip ("one" ++ " " ++ "two") = "one two" := by decide
    unfold merge_source_segments
    dsimp only
    rw [e1]
    rw [show tag_source_segments [] Source.speaker 0 = [] from rfl]
    simp only [Bool.and_false, Bool.false_and, List.isEmpty_nil, Bool.not_true]
    rw [if_neg Bool.false_ne_true, List.append_nil, e4, if_pos trivial]
    rw [group_consecutive_loop_nil_cons]
    rw [collapseFrom, if_pos rfl]
    rw [collapseFrom]
    unfold merge2
    rw [e5, e6]

end Liscribe
